import Mathlib

/-!
Verification of the excel-sheet-manager web application's core logic:
CSV parsing/serialization, role-based permission checks, upload handling,
the sheet viewer's editing state machine, and the activity-log schema.
Strings are modelled as lists of characters (`Str`), JavaScript objects as
insertion-ordered association lists with unique keys (`Obj`).
-/

/-- JavaScript strings, modelled as lists of characters. -/
abbrev Str := List Char

namespace JS

/-- Whitespace as recognised by JavaScript `String.prototype.trim`: the
ECMAScript WhiteSpace class (TAB, VT, FF, SP, NBSP, ZWNBSP and the
Unicode space separators U+1680, U+2000..U+200A, U+202F, U+205F, U+3000)
together with the LineTerminator class (LF, CR, LS U+2028, PS U+2029). -/
def isWS (c : Char) : Bool :=
  c = ' ' || c = '\t' || c = '\n' || c = '\r' ||
    c.toNat = 0xB || c.toNat = 0xC || c.toNat = 0xA0 || c.toNat = 0x1680 ||
    (0x2000 ≤ c.toNat && c.toNat ≤ 0x200A) || c.toNat = 0x2028 ||
    c.toNat = 0x2029 || c.toNat = 0x202F || c.toNat = 0x205F ||
    c.toNat = 0x3000 || c.toNat = 0xFEFF

/-- `s.trim()`: drop whitespace from both ends. -/
def trim (s : Str) : Str :=
  ((s.dropWhile isWS).reverse.dropWhile isWS).reverse

/-- `s.split(sep)` for a single-character separator, with JavaScript
semantics: the empty string splits to `[""]`. -/
def split (sep : Char) : Str → List Str
  | [] => [[]]
  | c :: rest =>
    if c = sep then [] :: split sep rest
    else
      match split sep rest with
      | [] => [[c]]
      | s :: ss => (c :: s) :: ss

/-- `parts.join(sep)` for a string separator. -/
def joinSep (sep : Str) : List Str → Str
  | [] => []
  | [l] => l
  | l :: ls => l ++ sep ++ joinSep sep ls

/-- A JavaScript object with string keys and string values: an
insertion-ordered association list whose keys are unique by construction. -/
abbrev Obj := List (Str × Str)

/-- Property assignment `o[k] = v`: overwrite in place if the key exists,
otherwise append the new key at the end (JS insertion order). -/
def objSet (o : Obj) (k v : Str) : Obj :=
  if o.any (fun p => p.1 = k) then
    o.map (fun p => if p.1 = k then (k, v) else p)
  else
    o ++ [(k, v)]

/-- Property read `o[k]`, `none` when the key is absent (`undefined`). -/
def objGet (o : Obj) (k : Str) : Option Str :=
  (o.find? (fun p => p.1 = k)).map (·.2)

/-- `o[k] || ''`: the stored value, or the empty string when absent.
(A stored empty string is falsy, and `'' || ''` is `''` as well, so the
default collapses both cases.) -/
def objGetD (o : Obj) (k : Str) : Str :=
  (objGet o k).getD []

/-- Property deletion via destructuring `const {[k]: _, ...rest} = o`. -/
def objRemove (o : Obj) (k : Str) : Obj :=
  o.filter (fun p => ¬ p.1 = k)

/-- `Object.values(o)`. -/
def objValues (o : Obj) : List Str :=
  o.map (·.2)

/-- Number of entries whose key is `k` (1 or 0 for genuine objects). -/
def countKey (o : Obj) (k : Str) : Nat :=
  (o.filter (fun p => p.1 = k)).length

/-- `s.includes(sub)`: substring test. -/
def includes (sub : Str) : Str → Bool
  | [] => sub.isPrefixOf []
  | c :: rest => sub.isPrefixOf (c :: rest) || includes sub rest

end JS

open JS

-- CSV handling of `CreateSheetDialog.tsx` (`parseCSV`, `parseCSVLine`).
namespace CreateSheetDialog

/-- The character loop of `parseCSVLine` (CreateSheetDialog.tsx:109-144):
the first argument is the unread input, `current` the field being
accumulated, the Bool the `inQuotes` state.  Inside quotes a `""` is an
escaped quote (consume two characters, emit one); any other `"` toggles
the quote state; an unquoted `,` or tab ends the field; every field is
trimmed when pushed, and the last field is pushed at end of input. -/
def parseCSVLineAux : Str → Str → Bool → List Str
  | [], current, _ => [trim current]
  | '"' :: '"' :: rest, current, true => parseCSVLineAux rest (current ++ ['"']) true
  | '"' :: rest, current, true => parseCSVLineAux rest current false
  | '"' :: rest, current, false => parseCSVLineAux rest current true
  | c :: rest, current, inQuotes =>
    if c = ',' && !inQuotes then
      trim current :: parseCSVLineAux rest [] false
    else if c = '\t' && !inQuotes then
      trim current :: parseCSVLineAux rest [] false
    else
      parseCSVLineAux rest (current ++ [c]) inQuotes

/-- `parseCSVLine` (CreateSheetDialog.tsx:109-144). -/
def parseCSVLine (line : Str) : List Str :=
  parseCSVLineAux line [] false

/-- Row-object construction of `parseCSV`
(`columns.forEach((col, colIndex) => { row[col] = values[colIndex] || '' })`),
with the running index made explicit. -/
def rebuildRowAux (vals : List Str) : List Str → Nat → Obj → Obj
  | [], _, o => o
  | c :: cs, i, o => rebuildRowAux vals cs (i + 1) (objSet o c (vals.getD i []))

def rebuildRow (cols vals : List Str) : Obj :=
  rebuildRowAux vals cols 0 []

/-- The row filter of `parseCSV`:
`Object.values(row).some(value => value && String(value).trim())`. -/
def rowKeep (o : Obj) : Bool :=
  (objValues o).any (fun v => !v.isEmpty && !(trim v).isEmpty)

/-- Result record of `parseCSV`: `{ data, columns }`. -/
structure ParsedCSV where
  data : List Obj
  columns : List Str
deriving DecidableEq, Repr

/-- `parseCSV` (CreateSheetDialog.tsx:85-107): split into lines, drop blank
lines, parse the first surviving line as the header, parse every further
line into a row object keyed by the header, and drop empty rows. -/
def parseCSV (csv : Str) : ParsedCSV :=
  let lines := (split '\n' csv).filter (fun l => !(trim l).isEmpty)
  match lines with
  | [] => ⟨[], []⟩
  | headerLine :: rest =>
    let columns := parseCSVLine headerLine
    let data :=
      (rest.map (fun line => rebuildRow columns (parseCSVLine line))).filter rowKeep
    ⟨data, columns⟩

end CreateSheetDialog

-- The sheet viewer (SheetViewer.tsx): CSV serialization and the editing
-- handlers.  `convertToCSV` below also appears verbatim in
-- BulkDownloadDialog.tsx:176-193 and in the project dashboard.
namespace SheetViewer

/-- `stringValue.replace(/"/g, '""')`. -/
def doubleQuotes (s : Str) : Str :=
  s.flatMap (fun c => if c = '"' then ['"', '"'] else [c])

/-- The cell serializer inside `convertToCSV` (SheetViewer.tsx:365-372):
quote the value, doubling embedded quotes, when it contains a comma, a
double quote or a newline; otherwise emit it verbatim. -/
def csvEscapeCell (s : Str) : Str :=
  if s.contains ',' || s.contains '"' || s.contains '\n' then
    '"' :: doubleQuotes s ++ ['"']
  else s

/-- The line a data row serializes to. -/
def csvRowLine (columns : List Str) (row : Obj) : Str :=
  joinSep [','] (columns.map (fun col => csvEscapeCell (objGetD row col)))

/-- `convertToCSV` (SheetViewer.tsx:358-376): with no data rows the result
is the joined header followed by a newline; otherwise the header line and
the row lines joined by newlines. -/
def convertToCSV (data : List Obj) (columns : List Str) : Str :=
  if data.isEmpty then
    joinSep [','] columns ++ ['\n']
  else
    joinSep ['\n'] (joinSep [','] columns :: data.map (csvRowLine columns))

end SheetViewer

-- The file upload dialog (FileUploadDialog): supported MIME types, the
-- file-selection handler, the plain CSV processor and the sheet record
-- built by `handleUpload`.
namespace FileUploadDialog

/-- The keys of the `supportedTypes` map (FileUploadDialog lines 29-35):
CSV, PDF, PNG, JPEG and JPG only. -/
def supportedTypesKeys : List String :=
  ["text/csv", "application/pdf", "image/png", "image/jpeg", "image/jpg"]

/-- A selected browser `File`: name, MIME type, size in bytes. -/
structure FileRec where
  name : String
  type : String
  size : Nat
deriving DecidableEq, Repr

/-- The component state touched by `handleFileSelect`: the `name` field,
the `selectedFile` state, and the file input element's value
(`fileInputRef.current.value`). -/
structure UploadState where
  name : String
  selectedFile : Option FileRec
  inputValue : String
deriving DecidableEq, Repr

/-- `handleFileSelect` (FileUploadDialog lines 37-58): a file whose MIME
type is not a key of `supportedTypes` raises an `Unsupported File Type`
toast, clears the file input's value and leaves the rest of the state
unchanged; a supported file becomes the selection, and the name field is
defaulted to the file name's first dot-component when still empty. -/
def handleFileSelect (st : UploadState) (f : FileRec) : UploadState × Option String :=
  if ¬ supportedTypesKeys.contains f.type then
    ({ st with inputValue := "" }, some "Unsupported File Type")
  else
    ({ st with
        selectedFile := some f
        name := if st.name = "" then (f.name.splitOn ".").headD "" else st.name },
      none)

/-- `h.trim().replace(/"/g, '')` used on header cells of `processCSVFile`. -/
def stripQuotes (s : Str) : Str :=
  s.filter (fun c => ¬ c = '"')

/-- `processCSVFile` (FileUploadDialog lines 60-93): split into non-blank
lines; the first line's comma-separated, trimmed, quote-stripped cells are
the headers; each later line becomes an object keyed by the headers. -/
def processCSVFile (text : Str) : CreateSheetDialog.ParsedCSV :=
  let lines := (split '\n' text).filter (fun l => !(trim l).isEmpty)
  match lines with
  | [] => ⟨[], []⟩
  | first :: rows =>
    let headers := (split ',' first).map (fun h => stripQuotes (trim h))
    let processedData :=
      rows.map (fun row =>
        let cells := (split ',' row).map (fun cell => stripQuotes (trim cell))
        CreateSheetDialog.rebuildRow headers cells)
    ⟨processedData, headers⟩

/-- The sheet row inserted by `handleUpload` (FileUploadDialog
lines 123-147), restricted to the fields the upload computes.  Only a
`text/csv` file is processed into tabular data; every other file keeps
`data` null and `columns` empty. -/
structure SheetInsert where
  name : String
  description : Option String
  data : Option (List Obj)
  columns : List Str
  file_type : String
  file_size : Nat
deriving DecidableEq

/-- The record handed to `.from('sheets').insert` by `handleUpload`, given
the dialog's name and description fields, the selected file and its text
content. -/
def uploadSheetInsert (name description : String) (f : FileRec) (content : Str) :
    SheetInsert :=
  let dataCols : Option (List Obj) × List Str :=
    if f.type = "text/csv" then
      let processed := processCSVFile content
      (some processed.data, processed.columns)
    else (none, [])
  { name := name.trim
    description := if description.trim = "" then none else some description.trim
    data := dataCols.1
    columns := dataCols.2
    file_type := f.type
    file_size := f.size }

end FileUploadDialog

/-- A `user_profiles` row as consumed by the components (useAuth profile). -/
structure Profile where
  id : String
  email : String
  full_name : Option String
  is_admin : Bool
  can_view : Bool
  can_download : Bool
deriving DecidableEq, Repr

/-- `profile?.is_admin` under optional chaining: `false` when logged out. -/
def profileIsAdmin : Option Profile → Bool
  | none => false
  | some p => p.is_admin

/-- The download gate `!profile?.can_download && !profile?.is_admin`
(negated): true exactly when the profile exists and has `can_download` or
`is_admin` set. -/
def profileMayDownload : Option Profile → Bool
  | none => false
  | some p => p.can_download || p.is_admin

/-- A row inserted into `activity_logs` by a component. -/
structure LogInsert where
  user_id : String
  action_type : String
  sheet_name : Option String
deriving DecidableEq, Repr

/-- A browser download triggered by a handler. -/
inductive DownloadItem where
  /-- Clicking an anchor pointing at the stored `file_url`. -/
  | fileLink (url : String) (saveName : String)
  /-- A generated text file offered under `filename`. -/
  | textFile (content : Str) (filename : String)
  /-- The JSON serialization of the sheet data, offered under `filename`. -/
  | jsonFile (data : List Obj) (filename : String)
  /-- An `.xlsx` workbook generated from the sheet data. -/
  | xlsxFile (data : List Obj) (filename : String)
deriving DecidableEq

/-- The observable outcome of a download handler: the downloads started,
the activity-log rows inserted, and the toast titles shown. -/
structure HandlerResult where
  downloads : List DownloadItem
  logs : List LogInsert
  toasts : List String
deriving DecidableEq

namespace SheetViewer

/-- A `sheets` row as held by the viewer. -/
structure Sheet where
  id : String
  name : String
  data : List Obj
  columns : List Str
  file_type : String
  file_url : Option String
  file_size : Option Nat
deriving DecidableEq

/-- `isSpreadsheet` (SheetViewer.tsx:53-55). -/
def isSpreadsheet (s : Sheet) : Bool :=
  s.file_type = "text/csv" ||
    s.file_type = "application/vnd.openxmlformats-officedocument.spreadsheetml.sheet" ||
    s.file_type = "application/vnd.ms-excel"

/-- `isImage := sheet.file_type?.includes('image')` (SheetViewer.tsx:57). -/
def isImage (s : Sheet) : Bool :=
  includes "image".data s.file_type.data

/-- `isPDF := sheet.file_type?.includes('pdf')` (SheetViewer.tsx:58). -/
def isPDF (s : Sheet) : Bool :=
  includes "pdf".data s.file_type.data

/-- `handleDownload` (SheetViewer.tsx:170-212): without the
`can_download`/`is_admin` flags the handler shows `Access Denied` and does
nothing else; otherwise an image or PDF with a stored URL is downloaded
directly, and a spreadsheet is serialized with `convertToCSV` and
downloaded.  No activity-log row is written on any path. -/
def handleDownload (profile : Option Profile) (sheet : Sheet) : HandlerResult :=
  if !profileMayDownload profile then
    ⟨[], [], ["Access Denied"]⟩
  else if isImage sheet || isPDF sheet then
    match sheet.file_url with
    | some url => ⟨[.fileLink url sheet.name], [], ["Download Started"]⟩
    | none => ⟨[], [], []⟩
  else if isSpreadsheet sheet then
    ⟨[.textFile (convertToCSV sheet.data sheet.columns) (sheet.name ++ ".csv")],
      [], ["Download Started"]⟩
  else ⟨[], [], []⟩

end SheetViewer

-- The project dashboard (the Dashboard component of src/unnamed/part_005,
-- second variant, lines 288-723): per-sheet download with a format
-- argument, and the role-derived capability flags.
namespace Dashboard

/-- `handleDownloadSheet` (part_005 lines 421-472): the same permission
gate as the viewer; when allowed, a `download` activity-log row is
inserted and the sheet is downloaded in the requested format. -/
def handleDownloadSheet (profile : Option Profile) (sheet : SheetViewer.Sheet)
    (format : String) : HandlerResult :=
  match profile with
  | none => ⟨[], [], ["Access Denied"]⟩
  | some p =>
    if !(p.can_download || p.is_admin) then
      ⟨[], [], ["Access Denied"]⟩
    else
      let log : LogInsert := ⟨p.id, "download", some sheet.name⟩
      let items : List DownloadItem :=
        if format = "csv" then
          [.textFile (SheetViewer.convertToCSV sheet.data sheet.columns)
            (sheet.name ++ ".csv")]
        else if format = "json" then
          [.jsonFile sheet.data (sheet.name ++ ".json")]
        else if format = "xlsx" then
          [.xlsxFile sheet.data (sheet.name ++ ".xlsx")]
        else []
      ⟨items, [log], ["Download Started"]⟩

/-- `canEdit` (part_005 line 507). -/
def canEdit (userRole : String) : Bool :=
  userRole = "admin" || userRole = "editor"

/-- `canManage` (part_005 line 508). -/
def canManage (userRole : String) : Bool :=
  userRole = "admin"

end Dashboard

namespace SheetViewer

/-- Replace the element at index `n` (the in-place row mutation of
`handleSaveCell`); out-of-range indices leave the list unchanged. -/
def updateAt (n : Nat) (f : α → α) : List α → List α
  | [] => []
  | x :: xs =>
    match n with
    | 0 => f x :: xs
    | m + 1 => x :: updateAt m f xs

/-- The viewer component state touched by the editing handlers
(SheetViewer.tsx:42-51), plus the list of `sheets` table updates issued by
`handleSave`. -/
structure VState where
  data : List Obj
  columns : List Str
  editingCell : Option (Nat × Str)
  editValue : Str
  newColumnName : Str
  savedWrites : List (List Obj × List Str)
deriving DecidableEq

/-- The viewer state constructed from a sheet
(`useState(sheet.data || [])`, `useState(sheet.columns || [])`). -/
def initState (sheet : Sheet) : VState :=
  ⟨sheet.data, sheet.columns, none, [], [], []⟩

/-- The editing events a user can feed the viewer. -/
inductive Ev where
  /-- `handleCellEdit(rowIndex, column, value)` (SheetViewer.tsx:74-78). -/
  | cellEdit (rowIndex : Nat) (column : Str) (value : Str)
  /-- `handleSaveCell` (SheetViewer.tsx:80-88). -/
  | saveCell
  /-- `handleCancelEdit` (SheetViewer.tsx:90-93). -/
  | cancelEdit
  /-- `handleAddRow` (SheetViewer.tsx:95-102). -/
  | addRow
  /-- `handleDeleteRow(rowIndex)` (SheetViewer.tsx:104-108). -/
  | deleteRow (rowIndex : Nat)
  /-- Typing into the add-column dialog (`setNewColumnName`). -/
  | setNewColumnName (s : Str)
  /-- `handleAddColumn` (SheetViewer.tsx:110-123). -/
  | addColumn
  /-- `handleDeleteColumn(columnToDelete)` (SheetViewer.tsx:125-134). -/
  | deleteColumn (column : Str)
  /-- Typing into the cell editor (`setEditValue`). -/
  | setEditValue (s : Str)
  /-- `handleSave` (SheetViewer.tsx:136-168), modelled by its
  `sheets.update` payload. -/
  | save
deriving DecidableEq

/-- The fresh row of `handleAddRow`:
`columns.forEach(col => { newRow[col] = '' })`. -/
def emptyRow (columns : List Str) : Obj :=
  columns.foldl (fun o col => objSet o col []) []

/-- One step of the viewer: the handlers of SheetViewer.tsx:74-168.  Every
handler except `handleAddRow` and the pure editor-state handlers starts
with `if (!profile?.is_admin) return`; `handleAddRow` has no such guard. -/
def step (profile : Option Profile) (st : VState) : Ev → VState
  | .cellEdit rowIndex column value =>
    if !profileIsAdmin profile then st
    else { st with editingCell := some (rowIndex, column), editValue := value }
  | .saveCell =>
    match st.editingCell with
    | some (r, c) =>
      { st with
          data := updateAt r (fun row => objSet row c st.editValue) st.data
          editingCell := none
          editValue := [] }
    | none => st
  | .cancelEdit => { st with editingCell := none, editValue := [] }
  | .addRow => { st with data := st.data ++ [emptyRow st.columns] }
  | .deleteRow rowIndex =>
    if !profileIsAdmin profile then st
    else { st with data := st.data.eraseIdx rowIndex }
  | .setNewColumnName s => { st with newColumnName := s }
  | .addColumn =>
    if !profileIsAdmin profile then st
    else
      let name := trim st.newColumnName
      if !name.isEmpty && !st.columns.contains name then
        { st with
            columns := st.columns ++ [name]
            data := st.data.map (fun row => objSet row name [])
            newColumnName := [] }
      else st
  | .deleteColumn column =>
    if !profileIsAdmin profile then st
    else
      { st with
          columns := st.columns.filter (fun col => ¬ col = column)
          data := st.data.map (fun row => objRemove row column) }
  | .setEditValue s => { st with editValue := s }
  | .save =>
    if !profileIsAdmin profile then st
    else { st with savedWrites := st.savedWrites ++ [(st.data, st.columns)] }

/-- Run a sequence of editing events. -/
def run (profile : Option Profile) (st : VState) (evs : List Ev) : VState :=
  evs.foldl (step profile) st

end SheetViewer

-- The project members dialog (ProjectMembersDialog.tsx, first variant,
-- lines 1-377): inviting members and changing their roles.
namespace ProjectMembersDialog

/-- The values offered by both role `Select` dropdowns
(ProjectMembersDialog.tsx:259-264 and 321-325): `viewer`, `editor`,
`admin` — the dropdown can emit nothing else. -/
def roleSelectOptions : List String :=
  ["viewer", "editor", "admin"]

/-- `canManageMembers` (ProjectMembersDialog.tsx:225). -/
def canManageMembers (userRole : String) : Bool :=
  userRole = "admin"

/-- A `project_invitations` row as inserted by `handleInvite`
(ProjectMembersDialog.tsx:139-147), restricted to the fields the dialog
chooses. -/
structure InvitationInsert where
  email : String
  role : String
deriving DecidableEq, Repr

/-- The dialog state relevant to role values: the controlled `inviteRole`
field (initially `'viewer'`, ProjectMembersDialog.tsx:52), the emails of
current members and of pending invitations, the invitations inserted so
far and the `project_members` role updates issued so far. -/
structure MState where
  inviteRole : String
  memberEmails : List String
  invitationEmails : List String
  invitationsCreated : List InvitationInsert
  roleUpdates : List (String × String)
deriving DecidableEq, Repr

/-- The dialog state after `fetchMembers`, before any user action. -/
def initMState (memberEmails invitationEmails : List String) : MState :=
  ⟨"viewer", memberEmails, invitationEmails, [], []⟩

/-- The dialog events that involve a role value.  The role dropdowns are
`Select` components whose only items are `roleSelectOptions`, so the
choice is modelled as an index into that list. -/
inductive MEv where
  /-- `setInviteRole` via the invite-role `Select`. -/
  | selectInviteRole (choice : Fin 3)
  /-- `handleInvite` with the given (already entered) email field. -/
  | invite (email : String)
  /-- `handleRoleChange(memberId, newRole)` from a member-row `Select`. -/
  | changeRole (memberId : String) (choice : Fin 3)
deriving DecidableEq

/-- One step of the dialog.  `handleInvite`
(ProjectMembersDialog.tsx:105-173) refuses empty emails, existing members
and already-invited emails; on success it inserts the invitation with
`role: inviteRole` and resets `inviteRole` to `'viewer'`.
`handleRoleChange` (ProjectMembersDialog.tsx:175-198) updates the member
row to the selected role. -/
def mstep (st : MState) : MEv → MState
  | .selectInviteRole choice =>
    { st with inviteRole := roleSelectOptions.get ⟨choice, by simp [roleSelectOptions]⟩ }
  | .invite email =>
    if email.trim = "" then st
    else if st.memberEmails.contains email.trim then st
    else if st.invitationEmails.contains email.trim then st
    else
      { st with
          invitationsCreated := st.invitationsCreated ++ [⟨email.trim, st.inviteRole⟩]
          invitationEmails := st.invitationEmails
          inviteRole := "viewer" }
  | .changeRole memberId choice =>
    { st with
        roleUpdates :=
          st.roleUpdates ++
            [(memberId, roleSelectOptions.get ⟨choice, by simp [roleSelectOptions]⟩)] }

/-- Run a sequence of dialog events. -/
def mrun (st : MState) (evs : List MEv) : MState :=
  evs.foldl mstep st

end ProjectMembersDialog

-- The database schema and row-level-security policies, from the SQL
-- migrations (src/unnamed/part_009, part_010, part_008 and
-- src/supabase/migrations).
namespace Schema

/-- `role TEXT NOT NULL DEFAULT 'member'` on `project_members`
(part_009 line 20). -/
def projectMembersRoleDefault : String := "member"

/-- `role TEXT NOT NULL DEFAULT 'member'` on `project_invitations`
(part_009 line 31). -/
def projectInvitationsRoleDefault : String := "member"

/-- The role vocabulary of the spec: admin, editor, viewer. -/
def validRoles : List String :=
  ["admin", "editor", "viewer"]

/-- SQL commands a row-level-security policy can be created `FOR`. -/
inductive PolicyCmd where
  | select
  | insert
  | update
  | delete
  | all
deriving DecidableEq, Repr

/-- A `CREATE POLICY` statement on a table. -/
structure Policy where
  name : String
  table : String
  cmd : PolicyCmd
deriving DecidableEq, Repr

/-- Every `CREATE POLICY` statement on `activity_logs` across all
migrations, in order: part_010 lines 49-64, then their project-scoped
replacements in part_009 lines 173-195 (the old two are dropped), then the
security-definer rewrites in part_008 lines 100-110 (again dropping and
recreating the same two).  No migration ever creates an `UPDATE`,
`DELETE`, or `ALL` policy on `activity_logs`. -/
def activityLogsPolicies : List Policy :=
  [⟨"Admins can view activity logs", "activity_logs", .select⟩,
   ⟨"Anyone can create activity logs", "activity_logs", .insert⟩,
   ⟨"Project admins can view activity logs", "activity_logs", .select⟩,
   ⟨"Project members can create activity logs", "activity_logs", .insert⟩,
   ⟨"Project admins can view activity logs", "activity_logs", .select⟩,
   ⟨"Project members can create activity logs", "activity_logs", .insert⟩]

end Schema

-- Every statement in the client code that touches the `activity_logs`
-- table, as an access list: the components only ever `select` rows for
-- display or `insert` fresh rows.
namespace ActivityLog

/-- The kind of PostgREST call made on a table. -/
inductive AccessKind where
  | select
  | insert
deriving DecidableEq, Repr

/-- One code location touching `activity_logs`: where it is, what it does,
and the `action_type` value it inserts (none for reads). -/
structure Access where
  location : String
  kind : AccessKind
  actionType : Option String
deriving DecidableEq, Repr

/-- All accesses to `activity_logs` in the repository's components:
the ActivityLogs list view reads rows; every other touch point inserts a
single fresh row (`view`, `download`, `upload`, `bulk_download`, or
`comment`).  No code path issues an update or a delete on the table. -/
def accesses : List Access :=
  [⟨"ActivityLogs.fetchLogs (part_004:45)", .select, none⟩,
   ⟨"FileUploadDialog.handleUpload (part_000:152)", .insert, some "upload"⟩,
   ⟨"Dashboard.handleViewSheet (part_005:407)", .insert, some "view"⟩,
   ⟨"Dashboard.handleDownloadSheet (part_005:434)", .insert, some "download"⟩,
   ⟨"Dashboard.handleViewSheet (part_005:822)", .insert, some "view"⟩,
   ⟨"Dashboard.handleDownloadSheet (part_005:849)", .insert, some "download"⟩,
   ⟨"Dashboard.handleViewSheet (part_006:96)", .insert, some "view"⟩,
   ⟨"Dashboard.handleDownloadSheet (part_006:123)", .insert, some "download"⟩,
   ⟨"BulkDownloadDialog.handleDownload (BulkDownloadDialog.tsx:91)", .insert,
     some "bulk_download"⟩,
   ⟨"CommentsDialog.handleAddComment (LoginPage.tsx:152)", .insert, some "comment"⟩,
   ⟨"CommentsDialog.handleAddComment (LoginPage.tsx:329)", .insert, some "comment"⟩]

end ActivityLog

namespace JS

theorem trim_nil : trim [] = [] := rfl

theorem trim_eq_nil_iff {l : Str} : trim l = [] ↔ ∀ c ∈ l, isWS c := by
  unfold trim
  rw [List.reverse_eq_nil_iff, List.dropWhile_eq_nil_iff]
  constructor
  · intro h c hc
    by_cases hw : isWS c = true
    · exact hw
    · exfalso
      have hmem : c ∈ l.dropWhile isWS := by
        have hsplit : l.takeWhile isWS ++ l.dropWhile isWS = l :=
          List.takeWhile_append_dropWhile _ _
        rcases List.mem_append.1 (hsplit ▸ hc) with h1 | h1
        · exact absurd (List.mem_takeWhile_imp h1) hw
        · exact h1
      exact hw (h c (List.mem_reverse.2 hmem))
  · intro h c hc
    exact h c ((List.dropWhile_sublist isWS).mem (List.mem_reverse.1 hc))

theorem trim_ne_nil_of_mem {l : Str} {c : Char} (hc : c ∈ l) (hw : ¬ isWS c) :
    ¬ trim l = [] := by
  intro h
  exact hw (trim_eq_nil_iff.1 h c hc)

theorem head_not_ws_of_trim_eq {c : Char} {l : Str} (h : trim (c :: l) = c :: l) :
    ¬ isWS c := by
  intro hw
  have h1 : ((c :: l).dropWhile isWS).length ≤ l.length := by
    rw [List.dropWhile_cons_of_pos hw]
    exact (List.dropWhile_sublist isWS).length_le
  have h2 : (trim (c :: l)).length ≤ ((c :: l).dropWhile isWS).length := by
    unfold trim
    rw [List.length_reverse]
    calc ((((c :: l).dropWhile isWS).reverse.dropWhile isWS)).length
        ≤ ((c :: l).dropWhile isWS).reverse.length := (List.dropWhile_sublist isWS).length_le
      _ = ((c :: l).dropWhile isWS).length := List.length_reverse _
  rw [h] at h2
  simp only [List.length_cons] at h2
  omega

theorem split_eq_single {sep : Char} {l : Str} (h : sep ∉ l) :
    split sep l = [l] := by
  induction l with
  | nil => rfl
  | cons c rest ih =>
    have hc : ¬ c = sep := fun hc => h (hc ▸ List.mem_cons_self c rest)
    have hrest : sep ∉ rest := fun hr => h (List.mem_cons_of_mem c hr)
    rw [split, if_neg hc, ih hrest]

theorem split_append_sep {sep : Char} {l rest : Str} (h : sep ∉ l) :
    split sep (l ++ sep :: rest) = l :: split sep rest := by
  induction l with
  | nil => simp [split]
  | cons c l ih =>
    have hc : ¬ c = sep := fun hc => h (hc ▸ List.mem_cons_self c l)
    have hl : sep ∉ l := fun hr => h (List.mem_cons_of_mem c hr)
    rw [List.cons_append, split, if_neg hc, ih hl]

theorem split_joinSep {sep : Char} {ls : List Str} (hne : ls ≠ [])
    (h : ∀ l ∈ ls, sep ∉ l) :
    split sep (joinSep [sep] ls) = ls := by
  induction ls with
  | nil => exact absurd rfl hne
  | cons l ls ih =>
    cases ls with
    | nil => exact split_eq_single (h l (List.mem_cons_self l []))
    | cons l2 ls2 =>
      rw [joinSep]
      have : l ++ [sep] ++ joinSep [sep] (l2 :: ls2) =
          l ++ sep :: joinSep [sep] (l2 :: ls2) := by simp
      rw [this, split_append_sep (h l (List.mem_cons_self l _)),
        ih (by simp) (fun x hx => h x (List.mem_cons_of_mem l hx))]
      simp

theorem mem_joinSep {sep : Str} {ls : List Str} {l : Str} {c : Char}
    (hl : l ∈ ls) (hc : c ∈ l) : c ∈ joinSep sep ls := by
  induction ls with
  | nil => cases hl
  | cons x ls ih =>
    cases ls with
    | nil =>
      rw [List.mem_singleton] at hl
      subst hl
      exact hc
    | cons l2 ls2 =>
      rw [joinSep]
      rcases List.mem_cons.1 hl with h1 | h1
      · subst h1
        simp [hc]
      · simp [ih h1]
      all_goals simp

end JS

namespace JS

theorem objGet_mapReplace_ne (o : Obj) (k v n : Str) (hn : ¬ n = k) :
    objGet (o.map (fun p => if p.1 = k then (k, v) else p)) n = objGet o n := by
  induction o with
  | nil => rfl
  | cons q o ih =>
    by_cases hq : q.1 = k
    · have h1 : ¬ (k, v).1 = n := fun h => hn h.symm
      have h2 : ¬ q.1 = n := by rw [hq]; exact fun h => hn h.symm
      simp only [List.map_cons, if_pos hq, objGet, List.find?_cons]
      simp only [h1, h2, decide_eq_true_eq, if_neg, decide_eq_false, Bool.false_eq_true]
      exact ih
    · simp only [List.map_cons, if_neg hq, objGet, List.find?_cons]
      by_cases hqn : q.1 = n
      · simp [hqn]
      · simp only [hqn, decide_eq_false, Bool.false_eq_true, if_neg]
        exact ih

theorem objGet_mapReplace_self (o : Obj) (k v : Str)
    (h : o.any (fun p => p.1 = k) = true) :
    objGet (o.map (fun p => if p.1 = k then (k, v) else p)) k = some v := by
  induction o with
  | nil => simp at h
  | cons q o ih =>
    by_cases hq : q.1 = k
    · simp [List.map_cons, if_pos hq, objGet, List.find?_cons]
    · simp only [List.map_cons, if_neg hq, objGet, List.find?_cons]
      simp only [hq, decide_eq_false, Bool.false_eq_true, if_neg]
      apply ih
      simp only [List.any_cons, Bool.or_eq_true, decide_eq_true_eq] at h
      exact h.resolve_left hq

theorem objGet_objSet (o : Obj) (k v n : Str) :
    objGet (objSet o k v) n = if n = k then some v else objGet o n := by
  unfold objSet
  by_cases hany : o.any (fun p => p.1 = k) = true
  · rw [if_pos hany]
    by_cases hn : n = k
    · subst hn
      rw [if_pos rfl, objGet_mapReplace_self o n v hany]
    · rw [if_neg hn, objGet_mapReplace_ne o k v n hn]
  · rw [if_neg hany]
    by_cases hn : n = k
    · subst hn
      rw [if_pos rfl]
      unfold objGet
      rw [List.find?_append]
      have h0 : o.find? (fun p => p.1 = n) = none := by
        rw [List.find?_eq_none]
        intro p hp
        simp only [decide_eq_true_eq]
        intro hpk
        exact hany (List.any_eq_true.2 ⟨p, hp, by simp [hpk]⟩)
      rw [h0]
      simp [List.find?_cons]
    · rw [if_neg hn]
      unfold objGet
      rw [List.find?_append]
      have h1 : List.find? (fun p => decide (p.1 = n)) [(k, v)] = none := by
        simp only [List.find?_cons, List.find?_nil]
        split
        · next hx =>
          simp only [decide_eq_true_eq] at hx
          exact absurd hx.symm hn
        · rfl
      rw [h1]
      simp

theorem countKey_mapReplace_self (o : Obj) (k v : Str) :
    countKey (o.map (fun p => if p.1 = k then (k, v) else p)) k = countKey o k := by
  induction o with
  | nil => rfl
  | cons q o ih =>
    by_cases hq : q.1 = k
    · simp only [countKey, List.map_cons, if_pos hq, List.filter_cons] at ih ⊢
      simp only [decide_eq_true_eq, hq, if_pos, List.length_cons]
      omega
    · simp only [countKey, List.map_cons, if_neg hq, List.filter_cons] at ih ⊢
      simp only [hq, decide_eq_false, Bool.false_eq_true, if_neg]
      exact ih

theorem countKey_mapReplace_ne (o : Obj) (k v n : Str) (hn : ¬ n = k) :
    countKey (o.map (fun p => if p.1 = k then (k, v) else p)) n = countKey o n := by
  induction o with
  | nil => rfl
  | cons q o ih =>
    by_cases hq : q.1 = k
    · have h1 : ¬ (k, v).1 = n := fun h => hn h.symm
      have h2 : ¬ q.1 = n := by rw [hq]; exact fun h => hn h.symm
      simp only [countKey, List.map_cons, if_pos hq, List.filter_cons] at ih ⊢
      simp only [h1, h2, decide_eq_false, Bool.false_eq_true, if_neg]
      exact ih
    · simp only [countKey, List.map_cons, if_neg hq, List.filter_cons] at ih ⊢
      by_cases hqn : q.1 = n
      · simp only [hqn, decide_eq_true_eq, if_pos, List.length_cons]
        omega
      · simp only [hqn, decide_eq_false, Bool.false_eq_true, if_neg]
        exact ih

theorem countKey_append (o₁ o₂ : Obj) (n : Str) :
    countKey (o₁ ++ o₂) n = countKey o₁ n + countKey o₂ n := by
  simp [countKey, List.filter_append]

theorem countKey_eq_zero_of_not_any (o : Obj) (k : Str)
    (h : ¬ o.any (fun p => p.1 = k) = true) : countKey o k = 0 := by
  unfold countKey
  rw [List.length_eq_zero, List.filter_eq_nil_iff]
  intro p hp
  simp only [decide_eq_true_eq]
  intro hpk
  exact h (List.any_eq_true.2 ⟨p, hp, by simp [hpk]⟩)

theorem countKey_pos_of_any (o : Obj) (k : Str)
    (h : o.any (fun p => p.1 = k) = true) : 1 ≤ countKey o k := by
  rw [List.any_eq_true] at h
  obtain ⟨p, hp, hpk⟩ := h
  simp only [decide_eq_true_eq] at hpk
  have hmem : p ∈ o.filter (fun p => decide (p.1 = k)) :=
    List.mem_filter.2 ⟨hp, by simp [hpk]⟩
  exact List.length_pos.2 (List.ne_nil_of_mem hmem)

theorem countKey_objSet (o : Obj) (k v n : Str) (h : ∀ m, countKey o m ≤ 1) :
    countKey (objSet o k v) n = if n = k then 1 else countKey o n := by
  unfold objSet
  by_cases hany : o.any (fun p => p.1 = k) = true
  · rw [if_pos hany]
    by_cases hn : n = k
    · subst hn
      rw [if_pos rfl, countKey_mapReplace_self]
      have h1 := countKey_pos_of_any o n hany
      have h2 := h n
      omega
    · rw [if_neg hn, countKey_mapReplace_ne o k v n hn]
  · rw [if_neg hany, countKey_append]
    by_cases hn : n = k
    · subst hn
      rw [countKey_eq_zero_of_not_any o n hany]
      simp [countKey, List.filter_cons]
    · have h1 : countKey [(k, v)] n = 0 := by
        simp only [countKey, List.filter_cons, List.filter_nil]
        split
        · next hx =>
          simp only [decide_eq_true_eq] at hx
          exact absurd hx.symm hn
        · rfl
      simp [h1, hn]

theorem objGet_foldl_objSet (f : Str → Str) (cols : List Str) (o : Obj) (n : Str) :
    objGet (cols.foldl (fun o c => objSet o c (f c)) o) n =
      if n ∈ cols then some (f n) else objGet o n := by
  induction cols generalizing o with
  | nil => simp
  | cons c cs ih =>
    simp only [List.foldl_cons]
    rw [ih]
    by_cases hc : n ∈ cs
    · simp [hc]
    · simp only [hc, if_false]
      rw [objGet_objSet]
      by_cases hn : n = c
      · simp [hn]
      · simp [hn, List.mem_cons, hc]

theorem objGet_mem_values {o : Obj} {k v : Str} (h : objGet o k = some v) :
    v ∈ objValues o := by
  unfold objGet at h
  obtain ⟨p, hp, hv⟩ := Option.map_eq_some'.1 h
  exact hv ▸ List.mem_map_of_mem _ (List.mem_of_find?_eq_some hp)

theorem countKey_foldl_objSet (f : Str → Str) (cols : List Str) (o : Obj) (n : Str)
    (h : ∀ m, countKey o m ≤ 1) :
    countKey (cols.foldl (fun o c => objSet o c (f c)) o) n =
      if n ∈ cols then 1 else countKey o n := by
  induction cols generalizing o with
  | nil => simp
  | cons c cs ih =>
    simp only [List.foldl_cons]
    have hset : ∀ m, countKey (objSet o c (f c)) m ≤ 1 := by
      intro m
      rw [countKey_objSet o c (f c) m h]
      split
      · exact le_refl 1
      · exact h m
    rw [ih _ hset]
    by_cases hc : n ∈ cs
    · simp [hc]
    · simp only [hc, if_false]
      rw [countKey_objSet o c (f c) n h]
      by_cases hn : n = c
      · simp [hn]
      · simp [List.mem_cons, hn, hc]


end JS

-- Round-trip lemmas: `parseCSVLine` inverts the cell serializer of
-- `convertToCSV` on tab-free, newline-free, trim-invariant cells.
namespace CSVRoundTrip

open CreateSheetDialog SheetViewer

/-- A cell value that survives the round trip: no newline, no tab, and no
leading or trailing whitespace. -/
def CellOK (v : Str) : Prop :=
  '\n' ∉ v ∧ '\t' ∉ v ∧ trim v = v

instance (v : Str) : Decidable (CellOK v) := by
  unfold CellOK
  infer_instance

/-- A column name that survives the round trip: additionally free of
commas and double quotes. -/
def ColOK (c : Str) : Prop :=
  ',' ∉ c ∧ '"' ∉ c ∧ '\n' ∉ c ∧ '\t' ∉ c ∧ trim c = c

instance (c : Str) : Decidable (ColOK c) := by
  unfold ColOK
  infer_instance

/-- The "read back" form of a row: one entry per column, absent cells
filled with the empty string.  `parseCSV ∘ convertToCSV` reproduces every
row in this form. -/
def fillRow (cols : List Str) (row : Obj) : Obj :=
  cols.foldl (fun o c => objSet o c (objGetD row c)) []

theorem pclAux_comma (cur r : Str) :
    parseCSVLineAux (',' :: r) cur false = trim cur :: parseCSVLineAux r [] false := rfl

theorem pclAux_quote_open (cur r : Str) :
    parseCSVLineAux ('"' :: r) cur false = parseCSVLineAux r cur true := by
  rw [parseCSVLineAux]

theorem pclAux_quote_close_nil (cur : Str) :
    parseCSVLineAux ['"'] cur true = parseCSVLineAux [] cur false := rfl

theorem pclAux_quote_close_comma (cur r : Str) :
    parseCSVLineAux ('"' :: ',' :: r) cur true = parseCSVLineAux (',' :: r) cur false := rfl

/-- Scanning a quote-free, comma-free, tab-free segment outside quotes
just extends the current field. -/
theorem pclAux_scan (s : Str) (h : ∀ c ∈ s, ¬ c = '"' ∧ ¬ c = ',' ∧ ¬ c = '\t') :
    ∀ cur rest, parseCSVLineAux (s ++ rest) cur false =
      parseCSVLineAux rest (cur ++ s) false := by
  induction s with
  | nil => intro cur rest; simp
  | cons c s ih =>
    intro cur rest
    obtain ⟨h1, h2, h3⟩ := h c (by simp)
    rw [List.cons_append, parseCSVLineAux]
    · rw [if_neg (by simp [h2]), if_neg (by simp [h3])]
      rw [ih (fun x hx => (h x (by simp [hx]))) (cur ++ [c]) rest]
      simp
    all_goals intros; simp_all

/-- Scanning the quote-doubled image of a segment inside quotes extends
the current field by the original segment. -/
theorem pclAux_quoted (s : Str) :
    ∀ cur rest, parseCSVLineAux (doubleQuotes s ++ rest) cur true =
      parseCSVLineAux rest (cur ++ s) true := by
  induction s with
  | nil => intro cur rest; simp [doubleQuotes]
  | cons c s ih =>
    intro cur rest
    by_cases hc : c = '"'
    · subst hc
      have he : doubleQuotes ('"' :: s) = '"' :: '"' :: doubleQuotes s := by
        simp [doubleQuotes]
      rw [he, List.cons_append, List.cons_append, parseCSVLineAux,
        ih (cur ++ ['"']) rest]
      simp
    · have he : doubleQuotes (c :: s) = c :: doubleQuotes s := by
        simp [doubleQuotes, hc]
      rw [he, List.cons_append, parseCSVLineAux]
      · rw [if_neg (by simp), if_neg (by simp)]
        rw [ih (cur ++ [c]) rest]
        simp
      all_goals intros; simp_all

/-- One serialized cell followed by a comma (or end of line) is scanned
back into exactly the cell. -/
theorem pclAux_encField (v : Str) (_hnl : '\n' ∉ v) (htab : '\t' ∉ v)
    (rest cur : Str) (hr : rest = [] ∨ ∃ r, rest = ',' :: r) :
    parseCSVLineAux (csvEscapeCell v ++ rest) cur false =
      parseCSVLineAux rest (cur ++ v) false := by
  unfold csvEscapeCell
  split
  · next hsp =>
    have hassoc : ('"' :: doubleQuotes v ++ ['"']) ++ rest =
        '"' :: (doubleQuotes v ++ ('"' :: rest)) := by simp
    rw [hassoc, pclAux_quote_open, pclAux_quoted v cur ('"' :: rest)]
    rcases hr with h | ⟨r, h⟩ <;> subst h
    · exact pclAux_quote_close_nil (cur ++ v)
    · exact pclAux_quote_close_comma (cur ++ v) r
  · next hsp =>
    simp only [Bool.or_eq_true, List.elem_iff, not_or] at hsp
    obtain ⟨⟨hcm, hq⟩, hnl2⟩ := hsp
    exact pclAux_scan v
      (fun c hc => ⟨fun h => hq (h ▸ hc), fun h => hcm (h ▸ hc), fun h => htab (h ▸ hc)⟩)
      cur rest

/-- A full line of serialized cells parses back into exactly the cells. -/
theorem parseCSVLine_encodedLine (cells : List Str) (hne : cells ≠ [])
    (h : ∀ v ∈ cells, CellOK v) :
    parseCSVLine (joinSep [','] (cells.map csvEscapeCell)) = cells := by
  unfold parseCSVLine
  induction cells with
  | nil => exact absurd rfl hne
  | cons v vs ih =>
    obtain ⟨hnl, htab, htrim⟩ := h v (by simp)
    cases vs with
    | nil =>
      show parseCSVLineAux (csvEscapeCell v) [] false = [v]
      rw [← List.append_nil (csvEscapeCell v),
        pclAux_encField v hnl htab [] [] (Or.inl rfl)]
      show [trim ([] ++ v)] = [v]
      simp [htrim]
    | cons w ws =>
      have hjoin : joinSep [','] ((v :: w :: ws).map csvEscapeCell) =
          csvEscapeCell v ++ (',' :: joinSep [','] ((w :: ws).map csvEscapeCell)) := by
        simp only [List.map_cons, joinSep]
        simp
      rw [hjoin,
        pclAux_encField v hnl htab _ [] (Or.inr ⟨_, rfl⟩),
        pclAux_comma, List.nil_append, htrim,
        ih (by simp) (fun x hx => h x (by simp [hx]))]

theorem mem_of_mem_joinSep {sep : Str} {ls : List Str} {c : Char}
    (hc : c ∈ joinSep sep ls) : c ∈ sep ∨ ∃ l ∈ ls, c ∈ l := by
  induction ls with
  | nil => cases hc
  | cons x ls ih =>
    cases ls with
    | nil =>
      right
      exact ⟨x, by simp, hc⟩
    | cons l2 ls2 =>
      replace hc : c ∈ x ++ sep ++ joinSep sep (l2 :: ls2) := hc
      rcases List.mem_append.1 hc with h1 | h1
      · rcases List.mem_append.1 h1 with h2 | h2
        · exact Or.inr ⟨x, by simp, h2⟩
        · exact Or.inl h2
      · rcases ih h1 with h2 | ⟨l, hl, hcl⟩
        · exact Or.inl h2
        · exact Or.inr ⟨l, by simp [hl], hcl⟩

theorem mem_doubleQuotes {v : Str} {c : Char} (hc : c ∈ doubleQuotes v) :
    c = '"' ∨ c ∈ v := by
  unfold doubleQuotes at hc
  rw [List.mem_flatMap] at hc
  obtain ⟨x, hx, hcx⟩ := hc
  by_cases hxq : x = '"'
  · subst hxq
    simp at hcx
    exact Or.inl hcx
  · simp [hxq] at hcx
    exact Or.inr (hcx ▸ hx)

theorem not_mem_csvEscapeCell {v : Str} {c : Char} (hq : ¬ c = '"') (hv : c ∉ v) :
    c ∉ csvEscapeCell v := by
  unfold csvEscapeCell
  split
  · intro hmem
    rcases List.mem_cons.1 hmem with h1 | h1
    · exact hq h1
    · rcases List.mem_append.1 h1 with h2 | h2
      · rcases mem_doubleQuotes h2 with h3 | h3
        · exact hq h3
        · exact hv h3
      · simp at h2
        exact hq h2
  · exact hv

theorem newline_not_mem_csvRowLine {columns : List Str} {row : Obj}
    (h : ∀ col ∈ columns, '\n' ∉ objGetD row col) :
    '\n' ∉ csvRowLine columns row := by
  intro hmem
  rcases mem_of_mem_joinSep hmem with h1 | ⟨l, hl, hcl⟩
  · simp at h1
  · rw [List.mem_map] at hl
    obtain ⟨col, hcol, hlc⟩ := hl
    exact not_mem_csvEscapeCell (by decide) (h col hcol) (hlc ▸ hcl)

theorem newline_not_mem_header {columns : List Str}
    (h : ∀ col ∈ columns, '\n' ∉ col) :
    '\n' ∉ joinSep [','] columns := by
  intro hmem
  rcases mem_of_mem_joinSep hmem with h1 | ⟨l, hl, hcl⟩
  · simp at h1
  · exact h l hl hcl

theorem trim_csvRowLine_ne_nil {columns : List Str} {row : Obj} {col : Str}
    (hcol : col ∈ columns) (hv : objGetD row col ≠ [])
    (htr : trim (objGetD row col) = objGetD row col) :
    ¬ trim (csvRowLine columns row) = [] := by
  set v := objGetD row col with hvdef
  have henc : csvEscapeCell v ∈ columns.map (fun c => csvEscapeCell (objGetD row c)) :=
    List.mem_map_of_mem _ hcol
  by_cases hsp : (v.contains ',' || v.contains '"' || v.contains '\n') = true
  · have hmem : '"' ∈ csvEscapeCell v := by
      unfold csvEscapeCell
      rw [if_pos hsp]
      simp
    exact trim_ne_nil_of_mem (mem_joinSep henc hmem) (by decide)
  · have henceq : csvEscapeCell v = v := by
      unfold csvEscapeCell
      rw [if_neg hsp]
    obtain ⟨c0, t, hct⟩ : ∃ c0 t, v = c0 :: t := by
      cases hvv : v with
      | nil => exact absurd hvv hv
      | cons a b => exact ⟨a, b, rfl⟩
    have hc0 : ¬ isWS c0 := head_not_ws_of_trim_eq (hct ▸ htr)
    have : c0 ∈ csvEscapeCell v := by
      rw [henceq, hct]
      simp
    exact trim_ne_nil_of_mem (mem_joinSep henc this) hc0

theorem csvEscapeCell_eq_self_of_colOK {c : Str} (h : ColOK c) :
    csvEscapeCell c = c := by
  obtain ⟨h1, h2, h3, _, _⟩ := h
  unfold csvEscapeCell
  rw [if_neg]
  simp only [Bool.or_eq_true, List.elem_iff, not_or]
  exact ⟨⟨h1, h2⟩, h3⟩

theorem rebuildRowAux_spec (f : Str → Str) (cols : List Str) :
    ∀ (cs done : List Str) (o : Obj), cols = done ++ cs →
      rebuildRowAux (cols.map f) cs done.length o =
        cs.foldl (fun o c => objSet o c (f c)) o := by
  intro cs
  induction cs with
  | nil => intro done o hsplit; rfl
  | cons c cs ih =>
    intro done o hsplit
    have hget : (cols.map f).getD done.length [] = f c := by
      rw [hsplit]
      rw [List.map_append, List.map_cons]
      rw [List.getD_eq_getElem?_getD, List.getElem?_append_right (by simp)]
      simp
    rw [rebuildRowAux, hget]
    have hsplit2 : cols = (done ++ [c]) ++ cs := by simp [hsplit]
    have hlen : done.length + 1 = (done ++ [c]).length := by simp
    rw [hlen, ih (done ++ [c]) (objSet o c (f c)) hsplit2]
    rfl

theorem rebuildRow_map (f : Str → Str) (cols : List Str) :
    rebuildRow cols (cols.map f) = cols.foldl (fun o c => objSet o c (f c)) [] := by
  unfold rebuildRow
  exact rebuildRowAux_spec f cols cols [] [] rfl

theorem objGet_fillRow {cols : List Str} (row : Obj) {col : Str} (h : col ∈ cols) :
    objGet (fillRow cols row) col = some (objGetD row col) := by
  unfold fillRow
  rw [objGet_foldl_objSet]
  simp [h]

theorem rowKeep_fillRow {cols : List Str} {row : Obj} {col : Str}
    (hcol : col ∈ cols) (hv : objGetD row col ≠ [])
    (htr : trim (objGetD row col) = objGetD row col) :
    rowKeep (fillRow cols row) = true := by
  unfold rowKeep
  rw [List.any_eq_true]
  refine ⟨objGetD row col, objGet_mem_values (objGet_fillRow row hcol), ?_⟩
  rw [Bool.and_eq_true]
  constructor
  · simpa [List.isEmpty_iff] using hv
  · rw [htr]
    simpa [List.isEmpty_iff] using hv

theorem map_csvEscapeCell_eq_self {columns : List Str} (h : ∀ c ∈ columns, ColOK c) :
    columns.map csvEscapeCell = columns := by
  calc columns.map csvEscapeCell
      = columns.map id := List.map_congr_left (fun c hc => csvEscapeCell_eq_self_of_colOK (h c hc))
    _ = columns := List.map_id columns

theorem parseCSVLine_header {columns : List Str} (hne : columns ≠ [])
    (h : ∀ c ∈ columns, ColOK c) :
    parseCSVLine (joinSep [','] columns) = columns := by
  conv_lhs => rw [← map_csvEscapeCell_eq_self h]
  exact parseCSVLine_encodedLine columns hne
    (fun v hv => ⟨(h v hv).2.2.1, (h v hv).2.2.2.1, (h v hv).2.2.2.2⟩)

theorem parseCSVLine_csvRowLine {columns : List Str} (row : Obj) (hne : columns ≠ [])
    (h : ∀ c ∈ columns, CellOK (objGetD row c)) :
    parseCSVLine (csvRowLine columns row) = columns.map (objGetD row) := by
  have hrw : csvRowLine columns row =
      joinSep [','] ((columns.map (objGetD row)).map csvEscapeCell) := by
    unfold csvRowLine
    rw [List.map_map]
    rfl
  rw [hrw]
  apply parseCSVLine_encodedLine
  · simpa using hne
  · intro v hv
    rw [List.mem_map] at hv
    obtain ⟨c, hc, hvc⟩ := hv
    exact hvc ▸ h c hc

/-- The round trip at the row level: parsing the serialized row rebuilds
exactly the filled row. -/
theorem rebuildRow_parseCSVLine_csvRowLine {columns : List Str} (row : Obj)
    (hne : columns ≠ []) (h : ∀ c ∈ columns, CellOK (objGetD row c)) :
    rebuildRow columns (parseCSVLine (csvRowLine columns row)) = fillRow columns row := by
  rw [parseCSVLine_csvRowLine row hne h, rebuildRow_map]
  rfl

/-- The full round trip: `parseCSV` applied to `convertToCSV` recovers the
column list and every row in filled (read-back) form, provided the column
names and cell values satisfy the round-trip conditions and the header
line is not blank. -/
theorem parseCSV_convertToCSV (columns : List Str) (data : List Obj)
    (hcols : ∀ c ∈ columns, ColOK c)
    (hheader : columns ≠ [] → ¬ trim (joinSep [','] columns) = [])
    (hrows : ∀ row ∈ data,
      (∀ c ∈ columns, CellOK (objGetD row c)) ∧ ∃ c ∈ columns, objGetD row c ≠ []) :
    parseCSV (convertToCSV data columns) =
      ⟨data.map (fillRow columns), columns⟩ := by
  have hnl_header : '\n' ∉ joinSep [','] columns :=
    newline_not_mem_header (fun c hc => (hcols c hc).2.2.1)
  cases data with
  | nil =>
    rw [convertToCSV, if_pos (by simp)]
    cases hcne : columns with
    | nil =>
      subst hcne
      show parseCSV ['\n'] = _
      decide
    | cons c0 cs0 =>
      rw [← hcne]
      have hsplit : split '\n' (joinSep [','] columns ++ ['\n']) =
          [joinSep [','] columns, []] := by
        have : joinSep [','] columns ++ ['\n'] =
            joinSep [','] columns ++ '\n' :: [] := rfl
        rw [this, split_append_sep hnl_header]
        rfl
      unfold parseCSV
      rw [hsplit]
      have hfilter : List.filter (fun l => !(trim l).isEmpty)
          [joinSep [','] columns, []] = [joinSep [','] columns] := by
        have h1 : (!(trim (joinSep [','] columns)).isEmpty) = true := by
          simpa [List.isEmpty_iff] using hheader (by rw [hcne]; simp)
        simp [List.filter_cons, h1, trim_nil]
      rw [hfilter]
      simp only [List.map_nil, List.filter_nil]
      rw [parseCSVLine_header (by rw [hcne]; simp) hcols]
  | cons row0 rows0 =>
    set data := row0 :: rows0 with hdata
    have hcne : columns ≠ [] := by
      obtain ⟨-, c0, hc0, -⟩ := hrows row0 (by rw [hdata]; simp)
      exact List.ne_nil_of_mem hc0
    rw [convertToCSV, if_neg (by simp [hdata])]
    have hsplit : split '\n'
        (joinSep ['\n'] (joinSep [','] columns :: data.map (csvRowLine columns))) =
        joinSep [','] columns :: data.map (csvRowLine columns) := by
      apply split_joinSep (by simp)
      intro l hl
      rcases List.mem_cons.1 hl with h1 | h1
      · exact h1 ▸ hnl_header
      · rw [List.mem_map] at h1
        obtain ⟨row, hrow, hlrow⟩ := h1
        refine hlrow ▸ newline_not_mem_csvRowLine (fun col hcol => ?_)
        exact ((hrows row hrow).1 col hcol).1
    unfold parseCSV
    rw [hsplit]
    have hfilter : List.filter (fun l => !(trim l).isEmpty)
        (joinSep [','] columns :: data.map (csvRowLine columns)) =
        joinSep [','] columns :: data.map (csvRowLine columns) := by
      rw [List.filter_eq_self]
      intro l hl
      rcases List.mem_cons.1 hl with h1 | h1
      · subst h1
        simpa [List.isEmpty_iff] using hheader hcne
      · rw [List.mem_map] at h1
        obtain ⟨row, hrow, hlrow⟩ := h1
        obtain ⟨hcells, c0, hc0, hv0⟩ := hrows row hrow
        subst hlrow
        simpa [List.isEmpty_iff] using
          trim_csvRowLine_ne_nil hc0 hv0 (hcells c0 hc0).2.2
    rw [hfilter]
    simp only
    rw [parseCSVLine_header hcne hcols]
    have hmaps : (data.map (csvRowLine columns)).map
        (fun line => rebuildRow columns (parseCSVLine line)) =
        data.map (fillRow columns) := by
      rw [List.map_map]
      apply List.map_congr_left
      intro row hrow
      exact rebuildRow_parseCSVLine_csvRowLine row hcne ((hrows row hrow).1)
    rw [hmaps]
    have hkeep : (data.map (fillRow columns)).filter rowKeep =
        data.map (fillRow columns) := by
      rw [List.filter_eq_self]
      intro o ho
      rw [List.mem_map] at ho
      obtain ⟨row, hrow, horow⟩ := ho
      obtain ⟨hcells, c0, hc0, hv0⟩ := hrows row hrow
      exact horow ▸ rowKeep_fillRow hc0 hv0 (hcells c0 hc0).2.2
    rw [hkeep]

end CSVRoundTrip

example : JS.split ',' "a,,b".data = ["a".data, "".data, "b".data] := by decide

example : JS.split '\n' "\n".data = [[], []] := by decide

example : JS.joinSep [','] ["a".data, [], "b".data] = "a,,b".data := by decide

example :
    CreateSheetDialog.parseCSVLine "a,\"b,c\",\"d\"\"e\"".data =
      ["a".data, "b,c".data, "d\"e".data] := by decide

example :
    SheetViewer.convertToCSV [[("h".data, "b,c".data)]] ["h".data] =
      "h\n\"b,c\"".data := by decide

example :
    CreateSheetDialog.parseCSV "h\nb\n \n".data =
      ⟨[[("h".data, "b".data)]], ["h".data]⟩ := by decide

-- Shared concrete fixtures used by witnesses and counterexamples.

/-- A logged-in viewer: neither `can_download` nor `is_admin`. -/
def viewerProfile : Profile :=
  ⟨"u-viewer", "viewer@example.com", none, false, true, false⟩

/-- A downloader profile: `can_download` but not `is_admin`. -/
def downloaderProfile : Profile :=
  ⟨"u-down", "down@example.com", none, false, true, true⟩

/-- A small CSV sheet. -/
def sampleSheet : SheetViewer.Sheet :=
  ⟨"s1", "Budget", [[("a".data, "1".data)]], ["a".data], "text/csv", none, none⟩

/-- C7: within a project, permissions derive from the role string alone:
`canEdit` holds iff the role is `admin` or `editor`, and the management
capability (`canManage` in the dashboard, `canManageMembers` in the
members dialog) holds iff the role is `admin`. -/
theorem C7_role_capabilities (role : String) :
    (Dashboard.canEdit role = true ↔ role = "admin" ∨ role = "editor") ∧
    (Dashboard.canManage role = true ↔ role = "admin") ∧
    ProjectMembersDialog.canManageMembers role = Dashboard.canManage role := by
  refine ⟨?_, ?_, rfl⟩
  · simp [Dashboard.canEdit]
  · simp [Dashboard.canManage]

/-- C6: after a successful upload the created sheet record carries parsed
tabular data exactly when the file type is `text/csv`: then its `data` is
the rows parsed by `processCSVFile` and its `columns` the parsed header;
for every other accepted type, `data` is null and `columns` is empty. -/
theorem C6_upload_data_iff_csv (name description : String)
    (f : FileUploadDialog.FileRec) (content : Str)
    (_hsupp : f.type ∈ FileUploadDialog.supportedTypesKeys) :
    (f.type = "text/csv" →
      (FileUploadDialog.uploadSheetInsert name description f content).data =
        some (FileUploadDialog.processCSVFile content).data ∧
      (FileUploadDialog.uploadSheetInsert name description f content).columns =
        (FileUploadDialog.processCSVFile content).columns) ∧
    (¬ f.type = "text/csv" →
      (FileUploadDialog.uploadSheetInsert name description f content).data = none ∧
      (FileUploadDialog.uploadSheetInsert name description f content).columns = []) := by
  constructor
  · intro hcsv
    simp [FileUploadDialog.uploadSheetInsert, hcsv]
  · intro hncsv
    simp [FileUploadDialog.uploadSheetInsert, hncsv]

/-- Witness for C6: a PDF upload stores no tabular data. -/
theorem C6_upload_data_iff_csv_witness :
    (FileUploadDialog.uploadSheetInsert "doc" "" ⟨"doc.pdf", "application/pdf", 9⟩ []).data
        = none ∧
    (FileUploadDialog.uploadSheetInsert "doc" "" ⟨"doc.pdf", "application/pdf", 9⟩ []).columns
        = [] :=
  (C6_upload_data_iff_csv "doc" "" ⟨"doc.pdf", "application/pdf", 9⟩ [] (by decide)).2
    (by decide)

/-- Counterexample for C5: an Excel file
(`application/vnd.openxmlformats-officedocument.spreadsheetml.sheet`) is
not accepted — the claim says CSV, Excel, PDF and image files are — it is
rejected with `Unsupported File Type`. -/
theorem C5_counterexample :
    FileUploadDialog.handleFileSelect ⟨"", none, "x"⟩
        ⟨"report.xlsx",
          "application/vnd.openxmlformats-officedocument.spreadsheetml.sheet", 100⟩ =
      (⟨"", none, ""⟩, some "Unsupported File Type") := by decide

/-- C5 (amended): the selection handler accepts a file exactly when its
MIME type is one of `text/csv`, `application/pdf`, `image/png`,
`image/jpeg`, `image/jpg`; any other file — Excel files included — is
rejected with an `Unsupported File Type` error, the file input's value is
cleared, and the previous state is otherwise untouched, so the file is
never uploaded. -/
theorem C5_file_select (st : FileUploadDialog.UploadState)
    (f : FileUploadDialog.FileRec) :
    ((FileUploadDialog.handleFileSelect st f).2 = none ↔
      f.type ∈ FileUploadDialog.supportedTypesKeys) ∧
    (f.type ∉ FileUploadDialog.supportedTypesKeys →
      FileUploadDialog.handleFileSelect st f =
        ({ st with inputValue := "" }, some "Unsupported File Type")) := by
  have hcm : FileUploadDialog.supportedTypesKeys.contains f.type = true ↔
      f.type ∈ FileUploadDialog.supportedTypesKeys := List.elem_iff
  constructor
  · unfold FileUploadDialog.handleFileSelect
    by_cases hsupp : FileUploadDialog.supportedTypesKeys.contains f.type = true
    · rw [if_neg (by simp only [not_not]; exact hsupp)]
      simp only [true_iff]
      exact hcm.1 hsupp
    · rw [if_pos hsupp]
      constructor
      · intro h
        cases h
      · intro hmem
        exact absurd (hcm.2 hmem) hsupp
  · intro hmem
    unfold FileUploadDialog.handleFileSelect
    rw [if_pos]
    intro hcontains
    exact hmem (hcm.1 hcontains)

/-- Witness for C5: a GIF image is rejected and the input cleared. -/
theorem C5_file_select_witness :
    FileUploadDialog.handleFileSelect ⟨"pics", some ⟨"a.png", "image/png", 3⟩, "x"⟩
        ⟨"anim.gif", "image/gif", 5⟩ =
      (⟨"pics", some ⟨"a.png", "image/png", 3⟩, ""⟩, some "Unsupported File Type") :=
  (C5_file_select ⟨"pics", some ⟨"a.png", "image/png", 3⟩, "x"⟩
    ⟨"anim.gif", "image/gif", 5⟩).2 (by decide)

/-- Counterexample for C3: the claim's enumeration of the inserted action
kinds (view, download, upload, bulk_download) is incomplete — the comments
dialog also inserts `comment` rows into `activity_logs`. -/
theorem C3_counterexample :
    (⟨"CommentsDialog.handleAddComment (LoginPage.tsx:152)",
        ActivityLog.AccessKind.insert, some "comment"⟩ : ActivityLog.Access) ∈
      ActivityLog.accesses ∧
    ("comment" ∈ ["view", "download", "upload", "bulk_download"]) = False := by
  constructor
  · decide
  · simp

/-- C3 (amended): the activity log is append-only — every code path
touching `activity_logs` either reads rows or inserts a fresh row (with
action type `view`, `download`, `upload`, `bulk_download`, or `comment`),
never an update or a delete — and every database policy ever created on
`activity_logs` is a SELECT or an INSERT policy, never UPDATE, DELETE or
ALL. -/
theorem C3_append_only :
    (ActivityLog.accesses.all (fun a =>
      a.kind == ActivityLog.AccessKind.insert ||
        a.kind == ActivityLog.AccessKind.select)) = true ∧
    (ActivityLog.accesses.all (fun a =>
      a.kind == ActivityLog.AccessKind.select ||
        ["view", "download", "upload", "bulk_download", "comment"].any
          (fun t => a.actionType == some t))) = true ∧
    (Schema.activityLogsPolicies.all (fun p =>
      p.cmd == Schema.PolicyCmd.select || p.cmd == Schema.PolicyCmd.insert)) = true := by
  decide

/-- Counterexample for C4: the `role` columns of `project_members` and
`project_invitations` default to `'member'`, which is not one of
admin/editor/viewer, contradicting the claim about the column's
initial/default value. -/
theorem C4_counterexample :
    Schema.projectMembersRoleDefault ∉ Schema.validRoles ∧
    Schema.projectInvitationsRoleDefault ∉ Schema.validRoles := by
  decide

namespace ProjectMembersDialog

theorem roleSelectOptions_valid (i : Fin 3) :
    Schema.validRoles.contains (roleSelectOptions.get ⟨i, by simp [roleSelectOptions]⟩)
      = true := by
  fin_cases i <;> decide

/-- The role-validity invariant of the members dialog state. -/
def RolesValid (st : MState) : Prop :=
  Schema.validRoles.contains st.inviteRole = true ∧
  (st.invitationsCreated.all fun inv => Schema.validRoles.contains inv.role) = true ∧
  (st.roleUpdates.all fun u => Schema.validRoles.contains u.2) = true

theorem mstep_rolesValid {st : MState} (h : RolesValid st) (e : MEv) :
    RolesValid (mstep st e) := by
  unfold RolesValid at h ⊢
  obtain ⟨h1, h2, h3⟩ := h
  cases e with
  | selectInviteRole choice =>
    exact ⟨roleSelectOptions_valid choice, h2, h3⟩
  | invite email =>
    simp only [mstep]
    split_ifs with hA hB hC
    · exact ⟨h1, h2, h3⟩
    · exact ⟨h1, h2, h3⟩
    · exact ⟨h1, h2, h3⟩
    · refine ⟨?_, ?_, h3⟩
      · rfl
      · simp only [List.all_append, Bool.and_eq_true]
        exact ⟨h2, by simpa using h1⟩
  | changeRole memberId choice =>
    refine ⟨h1, h2, ?_⟩
    simp only [mstep, List.all_append, Bool.and_eq_true]
    exact ⟨h3, by simpa using roleSelectOptions_valid choice⟩

theorem mrun_rolesValid {st : MState} (h : RolesValid st) (evs : List MEv) :
    RolesValid (mrun st evs) := by
  induction evs generalizing st with
  | nil => exact h
  | cons e evs ih => exact ih (mstep_rolesValid h e)

theorem initMState_rolesValid (memberEmails invitationEmails : List String) :
    RolesValid (initMState memberEmails invitationEmails) := by
  unfold RolesValid initMState
  exact ⟨rfl, rfl, rfl⟩

theorem mrun_rolesValid_unfolded {st : MState} (h : RolesValid st) (evs : List MEv) :
    Schema.validRoles.contains (mrun st evs).inviteRole = true ∧
    ((mrun st evs).invitationsCreated.all fun inv =>
      Schema.validRoles.contains inv.role) = true ∧
    ((mrun st evs).roleUpdates.all fun u => Schema.validRoles.contains u.2) = true :=
  mrun_rolesValid h evs

end ProjectMembersDialog

/-- C4 (amended): every role value chosen through the members dialog —
the `inviteRole` state, the role of every invitation it creates, and the
value of every role change it issues — is one of admin/editor/viewer; the
database default for the role columns, however, is `'member'`. -/
theorem C4_dialog_roles (memberEmails invitationEmails : List String)
    (evs : List ProjectMembersDialog.MEv) :
    (Schema.validRoles.contains
        (ProjectMembersDialog.mrun
          (ProjectMembersDialog.initMState memberEmails invitationEmails)
          evs).inviteRole = true ∧
      ((ProjectMembersDialog.mrun
          (ProjectMembersDialog.initMState memberEmails invitationEmails)
          evs).invitationsCreated.all fun inv =>
        Schema.validRoles.contains inv.role) = true ∧
      ((ProjectMembersDialog.mrun
          (ProjectMembersDialog.initMState memberEmails invitationEmails)
          evs).roleUpdates.all fun u => Schema.validRoles.contains u.2) = true) ∧
    Schema.projectMembersRoleDefault = "member" ∧
    Schema.projectInvitationsRoleDefault = "member" :=
  ⟨ProjectMembersDialog.mrun_rolesValid_unfolded
      (ProjectMembersDialog.initMState_rolesValid memberEmails invitationEmails) evs,
    rfl, rfl⟩

/-- C1: both download handlers perform a download only when the profile
has `can_download` or `is_admin`; for a profile with both flags false the
handler reports `Access Denied`, triggers no download, and writes no
activity-log row. -/
theorem C1_download_permission (p : Profile) (sheet : SheetViewer.Sheet)
    (format : String) (h1 : p.can_download = false) (h2 : p.is_admin = false) :
    SheetViewer.handleDownload (some p) sheet =
      ⟨[], [], ["Access Denied"]⟩ ∧
    Dashboard.handleDownloadSheet (some p) sheet format =
      ⟨[], [], ["Access Denied"]⟩ := by
  constructor
  · unfold SheetViewer.handleDownload
    rw [if_pos]
    simp [profileMayDownload, h1, h2]
  · unfold Dashboard.handleDownloadSheet
    simp only
    rw [if_pos]
    simp [h1, h2]

/-- Witness for C1: the viewer profile is denied on a concrete sheet. -/
theorem C1_download_permission_witness :
    SheetViewer.handleDownload (some viewerProfile) sampleSheet =
      ⟨[], [], ["Access Denied"]⟩ ∧
    Dashboard.handleDownloadSheet (some viewerProfile) sampleSheet "csv" =
      ⟨[], [], ["Access Denied"]⟩ :=
  C1_download_permission viewerProfile sampleSheet "csv" (by decide) (by decide)

/-- Counterexample for C2: `handleAddRow` has no `is_admin` guard — for a
profile with `is_admin` false it still appends a fresh empty row, changing
the sheet's data. -/
theorem C2_counterexample :
    viewerProfile.is_admin = false ∧
    (SheetViewer.step (some viewerProfile) (SheetViewer.initState sampleSheet)
        SheetViewer.Ev.addRow).data ≠
      (SheetViewer.initState sampleSheet).data := by
  decide

namespace SheetViewer

/-- For a non-admin profile, any handler other than `handleAddRow` leaves
`data`, `columns` and the saved writes unchanged and keeps no cell editor
open. -/
theorem step_nonAdmin_frame {profile : Option Profile}
    (hp : profileIsAdmin profile = false) {st : VState}
    (hcell : st.editingCell = none) {e : Ev} (he : e ≠ Ev.addRow) :
    (step profile st e).data = st.data ∧
    (step profile st e).columns = st.columns ∧
    (step profile st e).savedWrites = st.savedWrites ∧
    (step profile st e).editingCell = none := by
  cases e with
  | cellEdit rowIndex column value => simp [step, hp, hcell]
  | saveCell => simp [step, hcell]
  | cancelEdit => simp [step]
  | addRow => exact absurd rfl he
  | deleteRow rowIndex => simp [step, hp, hcell]
  | setNewColumnName s => simp [step, hcell]
  | addColumn => simp [step, hp, hcell]
  | deleteColumn column => simp [step, hp, hcell]
  | setEditValue s => simp [step, hcell]
  | save => simp [step, hp, hcell]

theorem run_nonAdmin_frame {profile : Option Profile}
    (hp : profileIsAdmin profile = false) {st : VState}
    (hcell : st.editingCell = none) {evs : List Ev} (he : Ev.addRow ∉ evs) :
    (run profile st evs).data = st.data ∧
    (run profile st evs).columns = st.columns ∧
    (run profile st evs).savedWrites = st.savedWrites := by
  induction evs generalizing st with
  | nil => exact ⟨rfl, rfl, rfl⟩
  | cons e evs ih =>
    have he1 : e ≠ Ev.addRow := fun h => he (h ▸ List.mem_cons_self e evs)
    have he2 : Ev.addRow ∉ evs := fun h => he (List.mem_cons_of_mem e h)
    obtain ⟨hd, hc, hs, hcell2⟩ := step_nonAdmin_frame hp hcell he1
    obtain ⟨hd2, hc2, hs2⟩ := ih hcell2 he2
    exact ⟨hd2.trans hd, hc2.trans hc, hs2.trans hs⟩

end SheetViewer

/-- C2 (amended): every sheet-editing operation of the viewer except
`handleAddRow` — cell editing (`handleCellEdit`/`handleSaveCell`), row
deletion, column addition, column deletion and `handleSave` — leaves the
sheet's data and columns unchanged and issues no database write unless the
profile has `is_admin`; `handleAddRow` alone is unguarded and appends an
empty row for any profile (in the UI it is reachable only through the
admin-only Add Row dialog). -/
theorem C2_nonAdmin_edits_frame (profile : Option Profile)
    (sheet : SheetViewer.Sheet) (evs : List SheetViewer.Ev)
    (hp : profileIsAdmin profile = false)
    (hnoadd : SheetViewer.Ev.addRow ∉ evs) :
    (SheetViewer.run profile (SheetViewer.initState sheet) evs).data = sheet.data ∧
    (SheetViewer.run profile (SheetViewer.initState sheet) evs).columns =
      sheet.columns ∧
    (SheetViewer.run profile (SheetViewer.initState sheet) evs).savedWrites = [] :=
  SheetViewer.run_nonAdmin_frame hp rfl hnoadd

/-- Witness for C2 (amended): a viewer attempting every guarded edit on a
concrete sheet changes nothing. -/
theorem C2_nonAdmin_edits_frame_witness :
    (SheetViewer.run (some viewerProfile) (SheetViewer.initState sampleSheet)
        [SheetViewer.Ev.cellEdit 0 "a".data "2".data, SheetViewer.Ev.saveCell,
          SheetViewer.Ev.deleteRow 0, SheetViewer.Ev.setNewColumnName "b".data,
          SheetViewer.Ev.addColumn, SheetViewer.Ev.deleteColumn "a".data,
          SheetViewer.Ev.save]).data = sampleSheet.data ∧
    (SheetViewer.run (some viewerProfile) (SheetViewer.initState sampleSheet)
        [SheetViewer.Ev.cellEdit 0 "a".data "2".data, SheetViewer.Ev.saveCell,
          SheetViewer.Ev.deleteRow 0, SheetViewer.Ev.setNewColumnName "b".data,
          SheetViewer.Ev.addColumn, SheetViewer.Ev.deleteColumn "a".data,
          SheetViewer.Ev.save]).columns = sampleSheet.columns ∧
    (SheetViewer.run (some viewerProfile) (SheetViewer.initState sampleSheet)
        [SheetViewer.Ev.cellEdit 0 "a".data "2".data, SheetViewer.Ev.saveCell,
          SheetViewer.Ev.deleteRow 0, SheetViewer.Ev.setNewColumnName "b".data,
          SheetViewer.Ev.addColumn, SheetViewer.Ev.deleteColumn "a".data,
          SheetViewer.Ev.save]).savedWrites = [] :=
  C2_nonAdmin_edits_frame (some viewerProfile) sampleSheet _ (by decide) (by decide)

namespace JS

theorem countKey_objRemove (o : Obj) (k n : Str) :
    countKey (objRemove o k) n = if n = k then 0 else countKey o n := by
  unfold countKey objRemove
  rw [List.filter_filter]
  by_cases hn : n = k
  · subst hn
    rw [if_pos rfl, List.length_eq_zero, List.filter_eq_nil_iff]
    intro a ha
    simp
  · rw [if_neg hn]
    apply congrArg List.length
    apply List.filter_congr
    intro a ha
    by_cases hq : a.1 = n
    · have hak : ¬ a.1 = k := fun h => hn (by rw [← hq, h])
      simp [hq, hak, hn]
    · simp [hq]

end JS

/-- An administrator profile. -/
def adminProfile : Profile :=
  ⟨"u-admin", "admin@example.com", some "Ada", true, true, true⟩

namespace SheetViewer

/-- The C9 invariant: every data row has exactly one entry per name of the
column list, and no entry for any other name. -/
def RowsMatch (data : List Obj) (columns : List Str) : Prop :=
  ∀ row ∈ data, ∀ name, countKey row name = if name ∈ columns then 1 else 0

theorem countKey_emptyRow (columns : List Str) (name : Str) :
    countKey (emptyRow columns) name = if name ∈ columns then 1 else 0 := by
  unfold emptyRow
  rw [countKey_foldl_objSet (fun _ => []) columns [] name (fun m => by simp [countKey])]
  simp [countKey]

theorem objGet_emptyRow {columns : List Str} {c : Str} (hc : c ∈ columns) :
    objGet (emptyRow columns) c = some [] := by
  unfold emptyRow
  rw [objGet_foldl_objSet (fun _ => []) columns [] c]
  simp [hc]

theorem rowsMatch_addRow {st : VState} (profile : Option Profile)
    (hinv : RowsMatch st.data st.columns) :
    RowsMatch (step profile st Ev.addRow).data (step profile st Ev.addRow).columns := by
  intro row hrow name
  simp only [step] at hrow ⊢
  rcases List.mem_append.1 hrow with h1 | h1
  · exact hinv row h1 name
  · rw [List.mem_singleton] at h1
    subst h1
    exact countKey_emptyRow st.columns name

theorem rowsMatch_objSet_newColumn {data : List Obj} {columns : List Str} {n : Str}
    (hinv : RowsMatch data columns) (hnmem : n ∉ columns) :
    RowsMatch (data.map (fun row => objSet row n [])) (columns ++ [n]) := by
  intro row hrow name
  rw [List.mem_map] at hrow
  obtain ⟨row0, hrow0, hroweq⟩ := hrow
  subst hroweq
  have hle : ∀ m, countKey row0 m ≤ 1 := by
    intro m
    rw [hinv row0 hrow0 m]
    split <;> omega
  rw [countKey_objSet row0 n [] name hle]
  by_cases hn : name = n
  · subst hn
    simp
  · rw [if_neg hn, hinv row0 hrow0 name]
    have : name ∈ columns ++ [n] ↔ name ∈ columns := by simp [hn]
    by_cases hmem : name ∈ columns
    · simp [hmem, this.2 hmem]
    · simp [hmem, hn]

theorem rowsMatch_addColumn {st : VState} (profile : Option Profile)
    (hinv : RowsMatch st.data st.columns) :
    RowsMatch (step profile st Ev.addColumn).data
      (step profile st Ev.addColumn).columns := by
  simp only [step]
  split
  · exact hinv
  · split
    · next hguard =>
      rw [Bool.and_eq_true] at hguard
      have hnmem : trim st.newColumnName ∉ st.columns := by
        intro hmem
        have hfalse := hguard.2
        have htrue : st.columns.contains (trim st.newColumnName) = true :=
          List.elem_iff.2 hmem
        simp [htrue] at hfalse
        exact hfalse hmem
      exact rowsMatch_objSet_newColumn hinv hnmem
    · exact hinv

theorem rowsMatch_objRemove {data : List Obj} {columns : List Str} (col : Str)
    (hinv : RowsMatch data columns) :
    RowsMatch (data.map (fun row => objRemove row col))
      (columns.filter (fun c => ¬ c = col)) := by
  intro row hrow name
  rw [List.mem_map] at hrow
  obtain ⟨row0, hrow0, hroweq⟩ := hrow
  subst hroweq
  rw [countKey_objRemove row0 col name]
  by_cases hn : name = col
  · subst hn
    rw [if_pos rfl, if_neg]
    intro hmem
    rw [List.mem_filter] at hmem
    simp at hmem
  · rw [if_neg hn, hinv row0 hrow0 name]
    have hiff : name ∈ columns.filter (fun c => ¬ c = col) ↔ name ∈ columns := by
      rw [List.mem_filter]
      simp [hn]
    by_cases hmem : name ∈ columns
    · rw [if_pos hmem, if_pos (hiff.2 hmem)]
    · rw [if_neg hmem, if_neg (fun h => hmem (hiff.1 h))]

theorem rowsMatch_deleteColumn {st : VState} (profile : Option Profile) (col : Str)
    (hinv : RowsMatch st.data st.columns) :
    RowsMatch (step profile st (Ev.deleteColumn col)).data
      (step profile st (Ev.deleteColumn col)).columns := by
  simp only [step]
  split
  · exact hinv
  · exact rowsMatch_objRemove col hinv

end SheetViewer

/-- C9: the sheet viewer's editing operations preserve the invariant that
every data row has exactly one entry per column name: `handleAddRow`
appends a row with an empty-string entry for each current column;
`handleAddColumn` (admin only, and only for a trimmed name that is
non-empty and not already a column) appends the name to the columns and an
empty-string entry to every row; `handleDeleteColumn` (admin only) removes
the name from the columns and the corresponding entry from every row. -/
theorem C9_editing_shape (profile : Option Profile) (st : SheetViewer.VState)
    (col : Str) (hinv : SheetViewer.RowsMatch st.data st.columns) :
    SheetViewer.RowsMatch (SheetViewer.step profile st SheetViewer.Ev.addRow).data
      (SheetViewer.step profile st SheetViewer.Ev.addRow).columns ∧
    SheetViewer.RowsMatch (SheetViewer.step profile st SheetViewer.Ev.addColumn).data
      (SheetViewer.step profile st SheetViewer.Ev.addColumn).columns ∧
    SheetViewer.RowsMatch
      (SheetViewer.step profile st (SheetViewer.Ev.deleteColumn col)).data
      (SheetViewer.step profile st (SheetViewer.Ev.deleteColumn col)).columns ∧
    (SheetViewer.step profile st SheetViewer.Ev.addRow).data =
      st.data ++ [SheetViewer.emptyRow st.columns] ∧
    (∀ c ∈ st.columns, objGet (SheetViewer.emptyRow st.columns) c = some []) ∧
    (profileIsAdmin profile = true →
      (trim st.newColumnName).isEmpty = false →
      st.columns.contains (trim st.newColumnName) = false →
      (SheetViewer.step profile st SheetViewer.Ev.addColumn).columns =
        st.columns ++ [trim st.newColumnName] ∧
      (SheetViewer.step profile st SheetViewer.Ev.addColumn).data =
        st.data.map (fun row => objSet row (trim st.newColumnName) [])) ∧
    (profileIsAdmin profile = true →
      (SheetViewer.step profile st (SheetViewer.Ev.deleteColumn col)).columns =
        st.columns.filter (fun c => ¬ c = col) ∧
      (SheetViewer.step profile st (SheetViewer.Ev.deleteColumn col)).data =
        st.data.map (fun row => objRemove row col)) := by
  refine ⟨SheetViewer.rowsMatch_addRow profile hinv,
    SheetViewer.rowsMatch_addColumn profile hinv,
    SheetViewer.rowsMatch_deleteColumn profile col hinv,
    rfl,
    fun c hc => SheetViewer.objGet_emptyRow hc,
    ?_, ?_⟩
  · intro hadmin hname hmem
    have hnotmem : trim st.newColumnName ∉ st.columns := by
      intro h
      have := List.elem_iff.2 h
      simp [this] at hmem
      exact hmem h
    simp [SheetViewer.step, hadmin, hname, hnotmem]
  · intro hadmin
    simp [SheetViewer.step, hadmin]

/-- Witness for C9: on a concrete one-column, one-row sheet state run by an
admin, the invariant holds after adding a row. -/
theorem C9_editing_shape_witness :
    SheetViewer.RowsMatch
      (SheetViewer.step (some adminProfile) (SheetViewer.initState sampleSheet)
        SheetViewer.Ev.addRow).data
      (SheetViewer.step (some adminProfile) (SheetViewer.initState sampleSheet)
        SheetViewer.Ev.addRow).columns :=
  (C9_editing_shape (some adminProfile) (SheetViewer.initState sampleSheet) "a".data
    (by intro row hrow name
        simp only [SheetViewer.initState, sampleSheet] at hrow
        rw [List.mem_singleton] at hrow
        subst hrow
        by_cases hname : name = "a".data
        · subst hname
          simp [countKey, List.filter_cons, SheetViewer.initState, sampleSheet]
        · have hnn : ¬ ("a".data : Str) = name := fun h => hname h.symm
          simp [countKey, List.filter_cons, hname, hnn,
            SheetViewer.initState, sampleSheet])).1

namespace SheetViewer

theorem length_le_doubleQuotes (s : Str) : s.length ≤ (doubleQuotes s).length := by
  induction s with
  | nil => simp [doubleQuotes]
  | cons c s ih =>
    by_cases hc : c = '"' <;>
      simp [doubleQuotes, hc] at ih ⊢ <;>
      omega

end SheetViewer

/-- C10: `convertToCSV` on an empty data list is exactly the comma-joined
column names followed by one newline; on a non-empty data list it is the
header line and one line per row joined by newlines, with nothing appended
after the last row line; and a cell value is emitted quoted with embedded
quotes doubled exactly when it contains a comma, a double quote or a
newline, and verbatim otherwise. -/
theorem C10_convertToCSV_shape (columns : List Str) (data : List Obj) (s : Str) :
    SheetViewer.convertToCSV [] columns = joinSep [','] columns ++ ['\n'] ∧
    (data ≠ [] → SheetViewer.convertToCSV data columns =
      joinSep ['\n']
        (joinSep [','] columns :: data.map (SheetViewer.csvRowLine columns))) ∧
    ((',' ∈ s ∨ '"' ∈ s ∨ '\n' ∈ s) →
      SheetViewer.csvEscapeCell s = '"' :: SheetViewer.doubleQuotes s ++ ['"']) ∧
    (¬ (',' ∈ s ∨ '"' ∈ s ∨ '\n' ∈ s) → SheetViewer.csvEscapeCell s = s) ∧
    (¬ SheetViewer.csvEscapeCell s = s ↔ (',' ∈ s ∨ '"' ∈ s ∨ '\n' ∈ s)) := by
  have hb : (s.contains ',' || s.contains '"' || s.contains '\n') = true ↔
      (',' ∈ s ∨ '"' ∈ s ∨ '\n' ∈ s) := by
    simp [List.elem_iff, or_assoc]
  have hquoted : (',' ∈ s ∨ '"' ∈ s ∨ '\n' ∈ s) →
      SheetViewer.csvEscapeCell s = '"' :: SheetViewer.doubleQuotes s ++ ['"'] := by
    intro hsp
    unfold SheetViewer.csvEscapeCell
    rw [if_pos (hb.2 hsp)]
  have hplain : ¬ (',' ∈ s ∨ '"' ∈ s ∨ '\n' ∈ s) →
      SheetViewer.csvEscapeCell s = s := by
    intro hsp
    unfold SheetViewer.csvEscapeCell
    rw [if_neg (fun hc => hsp (hb.1 hc))]
  refine ⟨rfl, ?_, hquoted, hplain, ?_, ?_⟩
  · intro hne
    unfold SheetViewer.convertToCSV
    rw [if_neg (by simpa [List.isEmpty_iff] using hne)]
  · intro hne
    by_contra hsp
    exact hne (hplain hsp)
  · intro hsp
    rw [hquoted hsp]
    intro heq
    have := congrArg List.length heq
    have hle := SheetViewer.length_le_doubleQuotes s
    simp at this
    omega

/-- Witness for C10: the nonempty-data equation and both emission modes at
concrete inputs. -/
theorem C10_convertToCSV_shape_witness :
    SheetViewer.convertToCSV [[("a".data, "x".data)]] ["a".data] =
      joinSep ['\n']
        (joinSep [','] ["a".data] ::
          [[("a".data, "x".data)]].map (SheetViewer.csvRowLine ["a".data])) ∧
    SheetViewer.csvEscapeCell "b,c".data =
      '"' :: SheetViewer.doubleQuotes "b,c".data ++ ['"'] ∧
    SheetViewer.csvEscapeCell "bc".data = "bc".data :=
  ⟨(C10_convertToCSV_shape ["a".data] [[("a".data, "x".data)]] "b,c".data).2.1
      (by decide),
    (C10_convertToCSV_shape ["a".data] [[("a".data, "x".data)]] "b,c".data).2.2.1
      (by decide),
    (C10_convertToCSV_shape ["a".data] [[("a".data, "x".data)]] "bc".data).2.2.2.1
      (by decide)⟩

/-- Counterexample for C8: the column list consisting of the single empty
name satisfies all of the claim's conditions, yet the round trip loses it:
the serialized header line is blank, so `parseCSV` drops it and returns no
columns. -/
theorem C8_counterexample :
    CSVRoundTrip.ColOK ([] : Str) ∧
    CreateSheetDialog.parseCSV (SheetViewer.convertToCSV [] [([] : Str)]) ≠
      ⟨[], [([] : Str)]⟩ := by
  constructor
  · exact ⟨by decide, by decide, by decide, by decide, rfl⟩
  · decide

/-- C8 (amended): for columns whose names contain no comma, double quote,
newline or tab and no leading or trailing whitespace, and rows whose cell
values contain no newline or tab and no leading or trailing whitespace,
with at least one non-empty cell per row, `parseCSV` applied to
`convertToCSV` returns exactly the original columns and the original rows
in order (absent cells read back as the empty string, i.e. rows come back
in filled form) — provided additionally that the column list is not the
single empty name, so that the header line is not blank. -/
theorem C8_csv_roundtrip (columns : List Str) (data : List Obj)
    (hcols : ∀ c ∈ columns, CSVRoundTrip.ColOK c)
    (hheader : columns ≠ [] → ¬ trim (joinSep [','] columns) = [])
    (hrows : ∀ row ∈ data,
      (∀ c ∈ columns, CSVRoundTrip.CellOK (objGetD row c)) ∧
      ∃ c ∈ columns, objGetD row c ≠ []) :
    CreateSheetDialog.parseCSV (SheetViewer.convertToCSV data columns) =
      ⟨data.map (CSVRoundTrip.fillRow columns), columns⟩ :=
  CSVRoundTrip.parseCSV_convertToCSV columns data hcols hheader hrows

/-- Witness for C8: a concrete two-column table with a comma and an
escaped quote in its cells, and one absent cell, round-trips. -/
theorem C8_csv_roundtrip_witness :
    CreateSheetDialog.parseCSV
        (SheetViewer.convertToCSV
          [[("name".data, "ann".data), ("note".data, "a,b".data)],
            [("name".data, "bo\"b".data), ("note".data, [])]]
          ["name".data, "note".data]) =
      ⟨[[("name".data, "ann".data), ("note".data, "a,b".data)],
          [("name".data, "bo\"b".data), ("note".data, [])]].map
          (CSVRoundTrip.fillRow ["name".data, "note".data]),
        ["name".data, "note".data]⟩ :=
  C8_csv_roundtrip ["name".data, "note".data]
    [[("name".data, "ann".data), ("note".data, "a,b".data)],
      [("name".data, "bo\"b".data), ("note".data, [])]]
    (by decide) (by decide) (by decide)
